import Mathlib

/-!
# MuaiPusher — verification of the scheduling and state-reconciliation core

Shallow embedding of the MuaiPusher worker (`main.py`, `schedule.py`,
`notifier.py`, `vision.py`) in Lean 4, with theorems settling the frozen
claims about its specification.

Conventions of the embedding:
* Python dicts of day entries become the `DayEntry` structure; optional
  fields become `Option String` and Python truthiness of a string field
  (`if not start`) becomes `truthy`.
* File-backed state (`schedule.json`, `last_url.txt`, `last_fetch.txt`)
  becomes the `WorkerState` record, passed and returned explicitly.
* Wall-clock instants within a day are natural numbers of seconds since
  midnight; fetch timestamps are integers of seconds on an absolute axis.
* Fallible paths (exceptions) become `Except` / `Option` results; a
  function whose Python original can raise an uncaught exception returns
  `Option` with `none` for the crash.
-/

/-- One day's row of the timetable, as extracted from the calendar image.
`date` is the required key (`entry["date"]` in `main.py`); every other
field is optional (`entry.get(...)`). -/
structure DayEntry where
  date : String
  day : Option String := none
  fajr_start : Option String := none
  fajr_jamaat : Option String := none
  sunrise : Option String := none
  zuhr_start : Option String := none
  zuhr_jamaat : Option String := none
  asr_start : Option String := none
  asr_jamaat : Option String := none
  maghrib_start : Option String := none
  maghrib_jamaat : Option String := none
  isha_start : Option String := none
  isha_jamaat : Option String := none
deriving DecidableEq, Repr

/-- Python truthiness of an optional string: `None` and `""` are falsy. -/
def truthy : Option String → Bool
  | none => false
  | some s => s ≠ ""

/-- The stored schedule document (`schedule.json`). -/
structure Schedule where
  week_label : String
  prayers : List DayEntry
deriving DecidableEq, Repr

/-- Python's `str.split(sep)` for a single-character separator, on the
character list of a string. `"".split(":") = [""]`. -/
def splitChar (sep : Char) : List Char → List (List Char)
  | [] => [[]]
  | c :: rest =>
    match splitChar sep rest with
    | [] => if c = sep then [[], [c]] else [[c]]
    | g :: gs => if c = sep then [] :: g :: gs else (c :: g) :: gs

/-- `int(s)` for a plain decimal digit string; `none` when Python's `int`
(compose with `datetime.replace` validation) would raise. -/
def digitsToNat : List Char → Option Nat
  | [] => none
  | cs =>
    if cs.all Char.isDigit then
      some (cs.foldl (fun a c => a * 10 + (c.toNat - 48)) 0)
    else none

/-- `h, m = map(int, hhmm.split(":"))` — `none` when unpacking or `int`
conversion raises. -/
def parseHHMM (s : String) : Option (Nat × Nat) :=
  match splitChar ':' s.data with
  | [hs, ms] =>
    match digitsToNat hs, digitsToNat ms with
    | some h, some m => some (h, m)
    | _, _ => none
  | _ => none

/-- Seconds since midnight of an `"HH:MM"` time, validated the way
`datetime.replace(hour=h, minute=m)` validates (`none` = raise). -/
def hhmmInstant (s : String) : Option Nat :=
  match parseHHMM s with
  | some (h, m) => if h < 24 ∧ m < 60 then some (h * 3600 + m * 60) else none
  | none => none

/-- Zero padding as in Python's `f"{m:02d}"` for naturals. -/
def pad2 (n : Nat) : String :=
  if n < 10 then "0" ++ toString n else toString n

/-- The arithmetic and formatting of `time_until` once the target parses:
a target at or before now is moved to tomorrow, then the delta is shown as
`"Xh Ym"` (minutes zero-padded) or as bare minutes. -/
def timeUntilCore (nowSecs tgt0 : Nat) : String :=
  let tgt := if tgt0 ≤ nowSecs then tgt0 + 86400 else tgt0
  let totalMinutes := (tgt - nowSecs) / 60
  let hours := totalMinutes / 60
  let mins := totalMinutes % 60
  if hours > 0 then s!"{hours}h {pad2 mins}m" else s!"{mins}m"

/-- `schedule.time_until`, lines 32–44 of `schedule.py`: minutes until the
target `"HH:MM"`, treating a target at or before now as tomorrow.
`now` is seconds since midnight; `none` models the uncaught exception on a
malformed target. -/
def time_until (nowSecs : Nat) (target_hhmm : String) : Option String :=
  match parseHHMM target_hhmm with
  | none => none
  | some (h, m) =>
    if h < 24 ∧ m < 60 then some (timeUntilCore nowSecs (h * 3600 + m * 60))
    else none

/-- The string `fmt_12h` builds once hour and minute are parsed:
`period = "AM" if h < 12 else "PM"`, `h12 = h % 12 or 12`. -/
def fmt12core (h m : Nat) : String :=
  let period := if h < 12 then "AM" else "PM"
  let h12 := if h % 12 = 0 then 12 else h % 12
  s!"{h12}:{pad2 m} {period}"

/-- `schedule.fmt_12h`, lines 47–52 of `schedule.py`: 24h `"HH:MM"` to
12h `"h:MM AM/PM"`. `none` models the crash on a malformed input. -/
def fmt_12h (hhmm : String) : Option String :=
  match parseHHMM hhmm with
  | none => none
  | some (h, m) => some (fmt12core h m)

/-- Parser for the 12-hour strings `fmt_12h` produces, giving back the
24-hour (hour, minute) pair they denote: the "12-hour interpretation"
the round-trip claim speaks about. -/
def parse12h (s : String) : Option (Nat × Nat) :=
  match splitChar ' ' s.data with
  | [t, ap] =>
    match splitChar ':' t with
    | [hs, ms] =>
      match digitsToNat hs, digitsToNat ms with
      | some h12, some m =>
        if 1 ≤ h12 ∧ h12 ≤ 12 ∧ m < 60 then
          if ap = "AM".data then some (h12 % 12, m)
          else if ap = "PM".data then some (h12 % 12 + 12, m)
          else none
        else none
      | _, _ => none
    | _ => none
  | _ => none

/-! ## Schedule merge (`main.refresh_schedule`, lines 94–105) -/

/-- Insertion into a Python dict modelled as an association list:
overwriting an existing key keeps its position, a new key is appended. -/
def dictInsert (m : List (String × DayEntry)) (k : String) (v : DayEntry) :
    List (String × DayEntry) :=
  match m with
  | [] => [(k, v)]
  | (k', v') :: rest =>
    if k' = k then (k, v) :: rest else (k', v') :: dictInsert rest k v

/-- `{e["date"]: e for e in ...}` extended entry by entry, then
`for entry in new: existing_by_date[entry["date"]] = entry` — both are the
same left fold of `dictInsert` over a list of entries. -/
def buildByDate (init : List (String × DayEntry)) : List DayEntry → List (String × DayEntry)
  | [] => init
  | e :: es => buildByDate (dictInsert init e.date e) es

/-- The sort key of `sorted(existing_by_date.values(), key=lambda e: e["date"])`. -/
def dateLe (e1 e2 : DayEntry) : Bool := e1.date ≤ e2.date

/-- The merged prayer list of `refresh_schedule`: dict of the existing
entries keyed by date, overwritten by the new entries, values sorted by
date (lines 96–99 of `main.py`). -/
def mergePrayers (a b : List DayEntry) : List DayEntry :=
  ((buildByDate (buildByDate [] a) b).map Prod.snd).mergeSort dateLe

/-- The dates present in a schedule's entry list. -/
def datesOf (s : List DayEntry) : List String := s.map (fun e => e.date)

/-- The entry a schedule holds for a date (first match, as
`get_todays_prayers` reads it). -/
def findEntry (s : List DayEntry) (d : String) : Option DayEntry :=
  s.find? (fun e => e.date = d)

/-- Dict lookup on the association list. -/
def lookupD (m : List (String × DayEntry)) (k : String) : Option DayEntry :=
  (m.find? (fun p => p.1 = k)).map Prod.snd

/-- The last entry of a list carrying a given date (the one that wins when
the list is folded into a dict). -/
def lastEntryFor : List DayEntry → String → Option DayEntry
  | [], _ => none
  | e :: es, k =>
    match lastEntryFor es k with
    | some e' => some e'
    | none => if e.date = k then some e else none

/-! ## Extraction (`vision.py`) and the refresh policy (`main.refresh_schedule`) -/

/-- The JSON document the language model returns for an OCR text, already
decoded: an optional `"error"` key, an optional `"week_label"`, and a list
of day entries. -/
structure RawParsed where
  error : Option String := none
  week_label : Option String := none
  prayers : List DayEntry := []
deriving DecidableEq, Repr

/-- `vision.parse_text_to_schedule`, lines 76–81: raise (`Except.error`)
when the decoded document carries an `"error"` key, otherwise return the
document. -/
def parse_text_to_schedule (data : RawParsed) : Except String RawParsed :=
  match data.error with
  | some e => Except.error ("Could not parse timetable from OCR text: " ++ e)
  | none => Except.ok data

/-- `vision.extract_schedule`: OCR and the model call are external; their
outcome is either an upstream failure or a decoded document, which is then
passed through `parse_text_to_schedule`. -/
def extract_schedule (rawRes : Except String RawParsed) : Except String RawParsed :=
  match rawRes with
  | Except.error e => Except.error e
  | Except.ok raw => parse_text_to_schedule raw

/-- The worker's durable state: `schedule.json`, `last_url.txt`,
`last_fetch.txt` (each `none` when the file does not exist).
`lastFetch` is in seconds on an absolute time axis. -/
structure WorkerState where
  schedule : Option Schedule
  lastUrl : Option String
  lastFetch : Option Int
deriving DecidableEq, Repr

/-- Outcome of one `refresh_schedule` call, as the spec classifies it. -/
inductive RefreshOutcome where
  | Skipped
  | Unchanged
  | Updated (n : Nat)
  | Failed
deriving DecidableEq, Repr

/-- `not force and days < REFRESH_INTERVAL_DAYS and SCHEDULE_FILE.exists()`:
with integer-second timestamps, `(now - last)/86400 < 7` iff
`now - last < 604800`; a missing `last_fetch.txt` gives `inf`, never `< 7`. -/
def tooSoon (st : WorkerState) (now : Int) (force : Bool) : Bool :=
  !force &&
    (match st.lastFetch with
     | none => false
     | some t => now - t < 604800) &&
    st.schedule.isSome

/-- `image_url == last_url and SCHEDULE_FILE.exists() and not force`
(`last_url` is `None` when `last_url.txt` is missing, never equal to a
string). -/
def urlUnchanged (st : WorkerState) (url : String) (force : Bool) : Bool :=
  (match st.lastUrl with
   | some u => u = url
   | none => false) &&
  st.schedule.isSome && !force

/-- `main.refresh_schedule`, lines 70–107, as a state transition.
External effects are oracle arguments: `fetchRes` is the result of
`get_calendar_image_url()`, `downloadOk` whether `download_image`
succeeded, `rawRes` the decoded document of the OCR + model pipeline.
Returns the new durable state, the outcome, and how many extraction
calls were made. -/
def refresh_schedule (st : WorkerState) (now : Int) (force : Bool)
    (fetchRes : Except String String) (downloadOk : Bool)
    (rawRes : Except String RawParsed) :
    WorkerState × RefreshOutcome × Nat :=
  if tooSoon st now force then (st, RefreshOutcome.Skipped, 0)
  else
    match fetchRes with
    | Except.error _ => (st, RefreshOutcome.Failed, 0)
    | Except.ok url =>
      if urlUnchanged st url force then
        ({ st with lastFetch := some now }, RefreshOutcome.Unchanged, 0)
      else if !downloadOk then (st, RefreshOutcome.Failed, 0)
      else
        match extract_schedule rawRes with
        | Except.error _ => (st, RefreshOutcome.Failed, 1)
        | Except.ok data =>
          let existingPrayers := match st.schedule with
            | some s => s.prayers
            | none => []
          let merged := mergePrayers existingPrayers data.prayers
          ({ schedule := some { week_label := data.week_label.getD "", prayers := merged },
             lastUrl := some url,
             lastFetch := some now },
           RefreshOutcome.Updated merged.length, 1)

/-! ## The day loop (`main.run_day`, lines 126–176) -/

/-- `schedule.get_todays_prayers`: first entry of the stored schedule whose
date equals today, `none` when the file is missing or no entry matches. -/
def get_todays_prayers (sched : Option Schedule) (today : String) : Option DayEntry :=
  match sched with
  | none => none
  | some s => s.prayers.find? (fun e => e.date = today)

/-- The canonical prayer order of `main.PRAYERS`. -/
def prayerName : Nat → String
  | 0 => "fajr"
  | 1 => "zuhr"
  | 2 => "asr"
  | 3 => "maghrib"
  | _ => "isha"

/-- The `*_start` field of `main.PRAYERS` row `i`. -/
def startField (e : DayEntry) : Nat → Option String
  | 0 => e.fajr_start
  | 1 => e.zuhr_start
  | 2 => e.asr_start
  | 3 => e.maghrib_start
  | _ => e.isha_start

/-- The `*_jamaat` field of `main.PRAYERS` row `i`. -/
def jamaatField (e : DayEntry) : Nat → Option String
  | 0 => e.fajr_jamaat
  | 1 => e.zuhr_jamaat
  | 2 => e.asr_jamaat
  | 3 => e.maghrib_jamaat
  | _ => e.isha_jamaat

/-- The argument record of `notifier.send_prayer_notification`. -/
structure Notification where
  prayer : String
  start : String
  jamaat : String
  next_prayer : Option String
  next_start : Option String
  sunrise : Option String
deriving DecidableEq, Repr

/-- Lines 157–175 of `main.py`: the notification built for prayer `i` once
it is due — the next-prayer fields look only at row `i + 1` of `PRAYERS`,
and sunrise is passed only for fajr. -/
def mkNotification (e : DayEntry) (i : Nat) (s j : String) : Notification :=
  let next : Option String × Option String :=
    if i + 1 < 5 && truthy (startField e (i + 1)) then
      (some (prayerName (i + 1)), startField e (i + 1))
    else (none, none)
  { prayer := prayerName i
    start := s
    jamaat := j
    next_prayer := next.1
    next_start := next.2
    sunrise := if prayerName i = "fajr" then e.sunrise else none }

/-- One iteration of the prayer loop in `run_day` (lines 140–176): `none`
is a crash (unparsable start time), `some none` means the prayer is
skipped (missing or falsy fields, or already passed), `some (some n)`
means notification `n` is sent. `now` is seconds since midnight. -/
def notifyPrayer (e : DayEntry) (now : Nat) (i : Nat) : Option (Option Notification) :=
  match startField e i, jamaatField e i with
  | some s, some j =>
    if s = "" ∨ j = "" then some none
    else
      match hhmmInstant s with
      | none => none
      | some pt => if pt < now then some none else some (mkNotification e i s j)
  | _, _ => some none

/-- What one `run_day` call sends. -/
inductive Sent where
  | unavailable
  | prayer (n : Notification)
deriving DecidableEq, Repr

/-- The `for i, (prayer, ...) in enumerate(PRAYERS)` loop of `run_day`:
notifications sent in order over the remaining prayer indices, `none` when
an iteration raises. -/
def runPrayerLoop (e : DayEntry) (now : Nat) : List Nat → Option (List Notification)
  | [] => some []
  | i :: is =>
    match notifyPrayer e now i with
    | none => none
    | some none => runPrayerLoop e now is
    | some (some n) => (runPrayerLoop e now is).map (fun l => n :: l)

/-- `main.run_day`, lines 126–176: given today's entry (or `none`) and the
time the call starts, returns the notifications sent in order and the
trailing wait in seconds (30 minutes when the schedule is unavailable);
`none` is an uncaught exception. -/
def run_day (entry : Option DayEntry) (now : Nat) : Option (List Sent × Nat) :=
  match entry with
  | none => some ([Sent.unavailable], 1800)
  | some e =>
    match runPrayerLoop e now [0, 1, 2, 3, 4] with
    | none => none
    | some ns => some (ns.map Sent.prayer, 0)

/-! ## Sent-state tracker (absent from `src/`) -/

/-- Modelled from the spec: the Sent-State Tracker / SentLog is not in the
source under `src/` — no `is_sent` / `mark_sent` code exists there.
Per spec §3 and §4.3 it is a durable mapping from date to the set of
prayer names already notified, read before every decision and written
after every delivery. A list of (date, prayer) pairs without duplicates
realises the mapping. -/
def SentLog := List (String × String)

/-- Modelled from the spec: `is_sent(date, prayer) -> bool`. -/
def is_sent (log : SentLog) (date prayer : String) : Bool :=
  List.contains log (date, prayer)

/-- Modelled from the spec: `mark_sent(date, prayer)` — a no-op when the
pair is already marked. -/
def mark_sent (log : SentLog) (date prayer : String) : SentLog :=
  if is_sent log date prayer then log else (date, prayer) :: log

/-! ## Spec-side definitions used to test claims against the code -/

/-- The next-prayer rule as the specification words it: the next prayer in
canonical order with a defined start time that day (skipping prayers whose
start is missing). -/
def specNextPrayer (e : DayEntry) (i : Nat) : Option String :=
  (((List.range 5).filter (fun j => decide (i < j) && truthy (startField e j))).head?).map prayerName

/-- Canonical `"HH:MM"` rendering, for quantifying over valid times. -/
def fmtHHMM (h m : Nat) : String := pad2 h ++ ":" ++ pad2 m

/-- Duration formatting as the spec words it: hours plus zero-padded
minutes when hours are present, bare minutes otherwise. -/
def specFmtDuration (totalMinutes : Nat) : String :=
  if 60 ≤ totalMinutes then s!"{totalMinutes / 60}h {pad2 (totalMinutes % 60)}m"
  else s!"{totalMinutes % 60}m"

/-- The prayer entries a stored schedule holds (`[]` when the file is
missing). -/
def prayersOf (sched : Option Schedule) : List DayEntry :=
  match sched with
  | none => []
  | some s => s.prayers

/-- Concrete day entry of the end-to-end fajr-only scenario: only fajr
data and a sunrise time, all other prayers missing. -/
def e6 : DayEntry :=
  { date := "2026-02-17", fajr_start := some "05:54", fajr_jamaat := some "06:45",
    sunrise := some "07:34" }

/-- The notification `run_day` sends for `e6` at 05:54. -/
def fajrNotif6 : Notification :=
  { prayer := "fajr", start := "05:54", jamaat := "06:45",
    next_prayer := none, next_start := none, sunrise := some "07:34" }

/-- Concrete day entry with fajr and asr data but no zuhr start time:
the immediate successor of fajr is undefined while a later prayer is
defined. -/
def eC4 : DayEntry :=
  { date := "2026-02-17", fajr_start := some "05:54", fajr_jamaat := some "06:45",
    sunrise := some "07:34", asr_start := some "14:48", asr_jamaat := some "15:15" }

/-- Concrete worker state: a stored (empty) schedule, a known calendar
URL, and a last fetch at absolute second 0. -/
def stW : WorkerState :=
  { schedule := some { week_label := "", prayers := [] },
    lastUrl := some "u", lastFetch := some 0 }

/-- Concrete day entry used to instantiate the merge theorem. -/
def eA : DayEntry := { date := "2026-02-01", fajr_start := some "06:26" }

/-- Concrete day entry used to instantiate the merge theorem. -/
def eB : DayEntry := { date := "2026-02-02", fajr_start := some "06:24" }

/-! ## Association-list lemmas for the dict used by the merge -/

theorem keys_dictInsert (m : List (String × DayEntry)) (k : String) (v : DayEntry) (x : String) :
    x ∈ (dictInsert m k v).map Prod.fst ↔ x ∈ m.map Prod.fst ∨ x = k := by
  induction m with
  | nil => simp [dictInsert]
  | cons p rest ih =>
    obtain ⟨k', v'⟩ := p
    by_cases h : k' = k
    · subst h
      simp [dictInsert]
      tauto
    · simp [dictInsert, h, ih]
      tauto

theorem nodupKeys_dictInsert (m : List (String × DayEntry)) (k : String) (v : DayEntry)
    (h : (m.map Prod.fst).Nodup) : ((dictInsert m k v).map Prod.fst).Nodup := by
  induction m with
  | nil => simp [dictInsert]
  | cons p rest ih =>
    obtain ⟨k', v'⟩ := p
    simp only [List.map_cons, List.nodup_cons] at h
    by_cases hk : k' = k
    · subst hk
      simpa [dictInsert] using h
    · simp only [dictInsert, if_neg hk, List.map_cons, List.nodup_cons]
      refine ⟨?_, ih h.2⟩
      intro hmem
      rcases (keys_dictInsert rest k v k').mp hmem with h1 | h1
      · exact h.1 h1
      · exact hk h1

theorem wf_dictInsert (m : List (String × DayEntry)) (k : String) (v : DayEntry)
    (hm : ∀ p ∈ m, (Prod.snd p).date = p.1) (hv : v.date = k) :
    ∀ p ∈ dictInsert m k v, (Prod.snd p).date = p.1 := by
  induction m with
  | nil =>
    intro p hp
    simp only [dictInsert, List.mem_singleton] at hp
    subst hp
    exact hv
  | cons q rest ih =>
    obtain ⟨k', v'⟩ := q
    intro p hp
    rw [dictInsert] at hp
    by_cases hk : k' = k
    · rw [if_pos hk, List.mem_cons] at hp
      rcases hp with hp | hp
      · subst hp; exact hv
      · exact hm p (List.mem_cons_of_mem _ hp)
    · rw [if_neg hk, List.mem_cons] at hp
      rcases hp with hp | hp
      · subst hp; exact hm (k', v') (List.mem_cons_self _ _)
      · exact ih (fun q hq => hm q (List.mem_cons_of_mem _ hq)) p hp

theorem lookupD_dictInsert_self (m : List (String × DayEntry)) (k : String) (v : DayEntry) :
    lookupD (dictInsert m k v) k = some v := by
  induction m with
  | nil => simp [dictInsert, lookupD]
  | cons q rest ih =>
    obtain ⟨k', v'⟩ := q
    by_cases hk : k' = k
    · subst hk
      simp [dictInsert, lookupD]
    · simp only [dictInsert, if_neg hk]
      rw [lookupD, List.find?_cons_of_neg _ (by simpa using hk)]
      exact ih

theorem lookupD_dictInsert_ne (m : List (String × DayEntry)) (k : String) (v : DayEntry)
    (x : String) (hx : x ≠ k) : lookupD (dictInsert m k v) x = lookupD m x := by
  induction m with
  | nil =>
    rw [dictInsert, lookupD, lookupD, List.find?_cons_of_neg _ (by simpa using Ne.symm hx)]
  | cons q rest ih =>
    obtain ⟨k', v'⟩ := q
    by_cases hk : k' = k
    · subst hk
      rw [dictInsert, if_pos rfl, lookupD, lookupD,
        List.find?_cons_of_neg _ (by simpa using Ne.symm hx),
        List.find?_cons_of_neg _ (by simpa using Ne.symm hx)]
    · rw [dictInsert, if_neg hk]
      by_cases hx' : k' = x
      · subst hx'
        rw [lookupD, lookupD, List.find?_cons_of_pos _ (by simp),
          List.find?_cons_of_pos _ (by simp)]
      · rw [lookupD, lookupD, List.find?_cons_of_neg _ (by simpa using hx'),
          List.find?_cons_of_neg _ (by simpa using hx')]
        exact ih

theorem keys_buildByDate (es : List DayEntry) :
    ∀ (init : List (String × DayEntry)) (x : String),
      x ∈ (buildByDate init es).map Prod.fst ↔ x ∈ init.map Prod.fst ∨ x ∈ datesOf es := by
  induction es with
  | nil => intro init x; simp [buildByDate, datesOf]
  | cons e es ih =>
    intro init x
    rw [buildByDate, ih, keys_dictInsert]
    simp only [datesOf, List.map_cons, List.mem_cons]
    constructor
    · rintro ((h | h) | h)
      · exact Or.inl h
      · exact Or.inr (Or.inl h)
      · exact Or.inr (Or.inr h)
    · rintro (h | h | h)
      · exact Or.inl (Or.inl h)
      · exact Or.inl (Or.inr h)
      · exact Or.inr h

theorem nodup_buildByDate (es : List DayEntry) :
    ∀ (init : List (String × DayEntry)), (init.map Prod.fst).Nodup →
      ((buildByDate init es).map Prod.fst).Nodup := by
  induction es with
  | nil => intro init h; exact h
  | cons e es ih =>
    intro init h
    rw [buildByDate]
    exact ih _ (nodupKeys_dictInsert _ _ _ h)

theorem wf_buildByDate (es : List DayEntry) :
    ∀ (init : List (String × DayEntry)), (∀ p ∈ init, (Prod.snd p).date = p.1) →
      ∀ p ∈ buildByDate init es, (Prod.snd p).date = p.1 := by
  induction es with
  | nil => intro init h; exact h
  | cons e es ih =>
    intro init h
    rw [buildByDate]
    exact ih _ (wf_dictInsert _ _ _ h rfl)

theorem lookupD_buildByDate (es : List DayEntry) :
    ∀ (init : List (String × DayEntry)) (k : String),
      lookupD (buildByDate init es) k
        = match lastEntryFor es k with
          | some e => some e
          | none => lookupD init k := by
  induction es with
  | nil => intro init k; rfl
  | cons e es ih =>
    intro init k
    rw [buildByDate, ih]
    cases h : lastEntryFor es k with
    | some e' => simp [lastEntryFor, h]
    | none =>
      simp only [lastEntryFor, h]
      by_cases hk : e.date = k
      · rw [if_pos hk, ← hk, lookupD_dictInsert_self]
      · rw [if_neg hk, lookupD_dictInsert_ne _ _ _ _ (fun hc => hk hc.symm)]

theorem lastEntryFor_eq_none (es : List DayEntry) (k : String) :
    lastEntryFor es k = none ↔ k ∉ datesOf es := by
  induction es with
  | nil => simp [lastEntryFor, datesOf]
  | cons e es ih =>
    rw [lastEntryFor]
    cases hx : lastEntryFor es k with
    | some e' =>
      have hmem : k ∈ datesOf es := by
        by_contra hc
        rw [← ih] at hc
        rw [hc] at hx
        cases hx
      simp only [datesOf, List.map_cons, List.mem_cons]
      constructor
      · intro h; simp at h
      · intro h
        exact absurd (Or.inr hmem) h
    | none =>
      have hk : k ∉ datesOf es := ih.mp hx
      by_cases he : e.date = k
      · rw [if_pos he]
        simp only [datesOf, List.map_cons, List.mem_cons]
        constructor
        · intro h; simp at h
        · intro h
          exact absurd (Or.inl he.symm) h
      · rw [if_neg he]
        simp only [datesOf, List.map_cons, List.mem_cons]
        constructor
        · intro _ hmem
          rcases hmem with hmem | hmem
          · exact he hmem.symm
          · exact hk hmem
        · intro _
          trivial

theorem lastEntryFor_mem (es : List DayEntry) (k : String) (e : DayEntry)
    (h : lastEntryFor es k = some e) : e ∈ es ∧ e.date = k := by
  induction es with
  | nil => simp [lastEntryFor] at h
  | cons x xs ih =>
    rw [lastEntryFor] at h
    cases hx : lastEntryFor xs k with
    | some e' =>
      rw [hx] at h
      obtain ⟨h1, h2⟩ := ih (hx.trans h)
      exact ⟨List.mem_cons_of_mem _ h1, h2⟩
    | none =>
      rw [hx] at h
      by_cases he : x.date = k
      · rw [if_pos he] at h
        cases h
        exact ⟨List.mem_cons_self _ _, he⟩
      · rw [if_neg he] at h
        cases h

theorem lastEntryFor_of_nodup (es : List DayEntry) (k : String)
    (h : (datesOf es).Nodup) : lastEntryFor es k = findEntry es k := by
  induction es with
  | nil => rfl
  | cons x xs ih =>
    simp only [datesOf, List.map_cons, List.nodup_cons] at h
    by_cases hk : x.date = k
    · have hnone : lastEntryFor xs k = none :=
        (lastEntryFor_eq_none xs k).mpr (hk ▸ h.1)
      rw [lastEntryFor, hnone, if_pos hk, findEntry,
        List.find?_cons_of_pos _ (by simpa using hk)]
    · rw [lastEntryFor, findEntry, List.find?_cons_of_neg _ (by simpa using hk)]
      rw [← findEntry, ← ih h.2]
      cases hh : lastEntryFor xs k with
      | some e' => rfl
      | none => rw [if_neg hk]

theorem findEntry_of_mem (l : List DayEntry) :
    ∀ (d : String) (e : DayEntry), (datesOf l).Nodup → e ∈ l → e.date = d →
      findEntry l d = some e := by
  induction l with
  | nil => intro d e _ hm; simp at hm
  | cons x xs ih =>
    intro d e hnd hm hdate
    simp only [datesOf, List.map_cons, List.nodup_cons] at hnd
    rcases List.mem_cons.mp hm with rfl | hm'
    · rw [findEntry, List.find?_cons_of_pos _ (by simpa using hdate)]
    · have hxd : x.date ≠ d := by
        intro hc
        exact hnd.1 (hc ▸ hdate ▸ List.mem_map_of_mem (fun e => e.date) hm')
      rw [findEntry, List.find?_cons_of_neg _ (by simpa using hxd)]
      exact ih d e hnd.2 hm' hdate

theorem lookupD_mem (m : List (String × DayEntry)) (k : String) (e : DayEntry)
    (h : lookupD m k = some e) : (k, e) ∈ m := by
  rw [lookupD] at h
  cases hf : m.find? (fun p => p.1 = k) with
  | none => rw [hf] at h; cases h
  | some p =>
    rw [hf] at h
    have h1 : p.1 = k := by simpa using List.find?_some hf
    have h2 : p ∈ m := List.mem_of_find?_eq_some hf
    have h3 : p.2 = e := by simpa using h
    obtain ⟨p1, p2⟩ := p
    simp only at h1 h3
    rw [h1, h3] at h2
    exact h2

theorem datesOf_mergePrayers_perm (a b : List DayEntry) :
    (datesOf (mergePrayers a b)).Perm
      ((buildByDate (buildByDate [] a) b).map Prod.fst) := by
  have wfD : ∀ p ∈ buildByDate (buildByDate [] a) b, (Prod.snd p).date = p.1 :=
    wf_buildByDate b _ (wf_buildByDate a [] (by simp))
  have h2 : ((((buildByDate (buildByDate [] a) b).map Prod.snd).mergeSort dateLe).map
        (fun e => e.date)).Perm
      (((buildByDate (buildByDate [] a) b).map Prod.snd).map (fun e => e.date)) :=
    (List.mergeSort_perm _ _).map _
  have h3 : ((buildByDate (buildByDate [] a) b).map Prod.snd).map (fun e => e.date)
      = (buildByDate (buildByDate [] a) b).map Prod.fst := by
    rw [List.map_map]
    exact List.map_congr_left (fun p hp => wfD p hp)
  rw [← h3]
  exact h2

theorem nodup_dates_mergePrayers (a b : List DayEntry) :
    (datesOf (mergePrayers a b)).Nodup :=
  (datesOf_mergePrayers_perm a b).nodup_iff.mpr
    (nodup_buildByDate b _ (nodup_buildByDate a [] (by simp)))

theorem mem_dates_mergePrayers (a b : List DayEntry) (d : String) :
    d ∈ datesOf (mergePrayers a b) ↔ d ∈ datesOf a ∨ d ∈ datesOf b := by
  rw [(datesOf_mergePrayers_perm a b).mem_iff, keys_buildByDate, keys_buildByDate]
  simp

theorem lookupD_full (a b : List DayEntry) (d : String) :
    lookupD (buildByDate (buildByDate [] a) b) d
      = match lastEntryFor b d with
        | some e => some e
        | none =>
          match lastEntryFor a d with
          | some e => some e
          | none => none := by
  rw [lookupD_buildByDate]
  cases lastEntryFor b d with
  | some e => rfl
  | none =>
    rw [lookupD_buildByDate]
    cases lastEntryFor a d <;> rfl

theorem findEntry_mergePrayers_of_lookupD (a b : List DayEntry) (d : String) (e : DayEntry)
    (h : lookupD (buildByDate (buildByDate [] a) b) d = some e) :
    findEntry (mergePrayers a b) d = some e := by
  have hmemD := lookupD_mem _ _ _ h
  have hdate : e.date = d := by
    have := wf_buildByDate b _ (wf_buildByDate a [] (by simp)) (d, e) hmemD
    simpa using this
  have hmemM : e ∈ mergePrayers a b := by
    rw [mergePrayers, List.mem_mergeSort]
    exact List.mem_map_of_mem Prod.snd hmemD
  exact findEntry_of_mem _ d e (nodup_dates_mergePrayers a b) hmemM hdate

/-! ## Claim theorems -/

/-- Claim C1: for every existing schedule A and newly extracted schedule B
(each listing every date once), the refresh merge produces a schedule whose
set of dates is exactly the union of A's and B's dates; a date present in B
gets B's entry (so B wins on dates present in both); a date present only in
A keeps A's entry unchanged; and no date of A is ever deleted. -/
theorem merge_is_union_and_newer_wins (a b : List DayEntry) (d : String)
    (ha : (datesOf a).Nodup) (hb : (datesOf b).Nodup) :
    (d ∈ datesOf (mergePrayers a b) ↔ d ∈ datesOf a ∨ d ∈ datesOf b)
    ∧ (d ∈ datesOf a → d ∈ datesOf (mergePrayers a b))
    ∧ (d ∈ datesOf b → findEntry (mergePrayers a b) d = findEntry b d)
    ∧ (d ∈ datesOf a → d ∉ datesOf b →
        findEntry (mergePrayers a b) d = findEntry a d) := by
  refine ⟨mem_dates_mergePrayers a b d, ?_, ?_, ?_⟩
  · intro hd
    exact (mem_dates_mergePrayers a b d).mpr (Or.inl hd)
  · intro hd
    have h1 : lastEntryFor b d ≠ none := fun hc => ((lastEntryFor_eq_none b d).mp hc) hd
    obtain ⟨e, he⟩ := Option.ne_none_iff_exists'.mp h1
    have hfb : findEntry b d = some e := by rw [← lastEntryFor_of_nodup b d hb, he]
    have hlook : lookupD (buildByDate (buildByDate [] a) b) d = some e := by
      rw [lookupD_buildByDate, he]
    rw [findEntry_mergePrayers_of_lookupD a b d e hlook, hfb]
  · intro hda hdb
    have h0 : lastEntryFor b d = none := (lastEntryFor_eq_none b d).mpr hdb
    have h1 : lastEntryFor a d ≠ none := fun hc => ((lastEntryFor_eq_none a d).mp hc) hda
    obtain ⟨e, he⟩ := Option.ne_none_iff_exists'.mp h1
    have hfa : findEntry a d = some e := by rw [← lastEntryFor_of_nodup a d ha, he]
    have hlook : lookupD (buildByDate (buildByDate [] a) b) d = some e := by
      rw [lookupD_full, h0, he]
    rw [findEntry_mergePrayers_of_lookupD a b d e hlook, hfa]

/-- Witness for C1: the merge theorem instantiated at two concrete
one-entry schedules and the date of the first. -/
theorem merge_is_union_and_newer_wins_witness :
    ("2026-02-01" ∈ datesOf (mergePrayers [eA] [eB])
        ↔ "2026-02-01" ∈ datesOf [eA] ∨ "2026-02-01" ∈ datesOf [eB])
    ∧ ("2026-02-01" ∈ datesOf [eA] → "2026-02-01" ∈ datesOf (mergePrayers [eA] [eB]))
    ∧ ("2026-02-01" ∈ datesOf [eB] →
        findEntry (mergePrayers [eA] [eB]) "2026-02-01" = findEntry [eB] "2026-02-01")
    ∧ ("2026-02-01" ∈ datesOf [eA] → "2026-02-01" ∉ datesOf [eB] →
        findEntry (mergePrayers [eA] [eB]) "2026-02-01" = findEntry [eA] "2026-02-01") :=
  merge_is_union_and_newer_wins [eA] [eB] "2026-02-01" (by decide) (by decide)

/-- Claim C2: when a refresh attempt reaches extraction (it is neither
skipped as too soon nor resolved as an unchanged identifier) and the
extraction pipeline fails, the durable state — stored schedule, last-seen
URL and last-fetch timestamp — is returned exactly as it was, and the
outcome is Failed; moreover the extractor's explicit "error" sentinel in
the decoded document always raises an extraction error. -/
theorem refresh_extract_failure_preserves_state (st : WorkerState) (now : Int)
    (force : Bool) (url : String) (rawRes : Except String RawParsed) (msg : String)
    (raw : RawParsed) (errval : String)
    (hskip : tooSoon st now force = false)
    (hunch : urlUnchanged st url force = false)
    (hfail : extract_schedule rawRes = Except.error msg)
    (hsent : raw.error = some errval) :
    refresh_schedule st now force (Except.ok url) true rawRes
      = (st, RefreshOutcome.Failed, 1)
    ∧ parse_text_to_schedule raw
      = Except.error ("Could not parse timetable from OCR text: " ++ errval) := by
  constructor
  · rw [refresh_schedule, hskip]
    show (if urlUnchanged st url force = true then _ else _) = _
    rw [hunch]
    simp only [Bool.false_eq_true, if_false, Bool.not_true, hfail]
  · rw [parse_text_to_schedule, hsent]

/-- Witness for C2: a forced refresh on a concrete state where the model
returns the `not_found` sentinel. -/
theorem refresh_extract_failure_preserves_state_witness :
    refresh_schedule stW 0 true (Except.ok "u2") true
        (Except.ok { error := some "not_found" })
      = (stW, RefreshOutcome.Failed, 1)
    ∧ parse_text_to_schedule { error := some "not_found" }
      = Except.error ("Could not parse timetable from OCR text: " ++ "not_found") :=
  refresh_extract_failure_preserves_state stW 0 true "u2"
    (Except.ok { error := some "not_found" })
    "Could not parse timetable from OCR text: not_found"
    { error := some "not_found" } "not_found"
    (by decide) (by decide) rfl rfl

/-- Claim C3: the Sent-State Tracker's `mark_sent` is idempotent — marking
an already-marked (date, prayer) pair is a no-op, so a double `mark_sent`
leaves both the log and every `is_sent` observation identical to a single
one. (The tracker is absent from `src/` and is modelled from the spec.) -/
theorem mark_sent_idempotent (log : SentLog) (d p : String) :
    mark_sent (mark_sent log d p) d p = mark_sent log d p
    ∧ ∀ d' p', is_sent (mark_sent (mark_sent log d p) d p) d' p'
        = is_sent (mark_sent log d p) d' p' := by
  by_cases hc : is_sent log d p = true
  · have h1 : mark_sent log d p = log := by simp [mark_sent, hc]
    exact ⟨by rw [h1, h1], fun d' p' => by rw [h1, h1]⟩
  · have h1 : mark_sent log d p = (d, p) :: log := by simp [mark_sent, hc]
    have h2 : mark_sent ((d, p) :: log) d p = (d, p) :: log := by
      simp [mark_sent, is_sent]
    exact ⟨by rw [h1, h2], fun d' p' => by rw [h1, h2]⟩

/-- Counterexample to claim C4 as stated: on a day with fajr data, no zuhr
start time, and an asr start time, the fajr notification the code emits
carries no next prayer, while "the next prayer in canonical order with a
defined start time" is asr. -/
theorem next_prayer_skip_counterexample :
    (notifyPrayer eC4 0 0).map (Option.map Notification.next_prayer) = some (some none)
    ∧ specNextPrayer eC4 0 = some "asr" := by decide

/-- Claim C4 (amended): the next_prayer included in a notification is the
immediately following prayer in canonical order when that prayer's start
time is present and non-empty on the day, and is absent otherwise — the
code does not skip over prayers with missing start times — and next_prayer
is always absent for isha. -/
theorem next_prayer_immediate_successor (e : DayEntry) (now i : Nat) (n : Notification)
    (h : notifyPrayer e now i = some (some n)) :
    n.next_prayer = (if i + 1 < 5 && truthy (startField e (i + 1))
        then some (prayerName (i + 1)) else none)
    ∧ n.next_start = (if i + 1 < 5 && truthy (startField e (i + 1))
        then startField e (i + 1) else none)
    ∧ (n.prayer = "isha" → n.next_prayer = none) := by
  unfold notifyPrayer at h
  split at h
  case h_2 => cases h
  case h_1 s j hs hj =>
    split at h
    · cases h
    · split at h
      · cases h
      · split at h
        · cases h
        · have hn : n = mkNotification e i s j := by
            simpa using h.symm
          subst hn
          have h1 : (mkNotification e i s j).next_prayer
              = (if i + 1 < 5 && truthy (startField e (i + 1))
                  then some (prayerName (i + 1)) else none) := by
            rw [mkNotification]
            cases hc : (decide (i + 1 < 5) && truthy (startField e (i + 1))) with
            | true => simp [hc]
            | false => simp [hc]
          have h2 : (mkNotification e i s j).next_start
              = (if i + 1 < 5 && truthy (startField e (i + 1))
                  then startField e (i + 1) else none) := by
            rw [mkNotification]
            cases hc : (decide (i + 1 < 5) && truthy (startField e (i + 1))) with
            | true => simp [hc]
            | false => simp [hc]
          refine ⟨h1, h2, ?_⟩
          intro hisha
          rw [h1]
          have hi : ¬ (i + 1 < 5) := by
            rcases i with _|_|_|_|i4
            · simp [mkNotification, prayerName] at hisha
            · simp [mkNotification, prayerName] at hisha
            · simp [mkNotification, prayerName] at hisha
            · simp [mkNotification, prayerName] at hisha
            · omega
          simp [hi]

/-- Witness for C4 (amended): the fajr notification of the fajr-only day,
whose immediate successor zuhr has no start time. -/
theorem next_prayer_immediate_successor_witness :
    fajrNotif6.next_prayer = (if 0 + 1 < 5 && truthy (startField e6 (0 + 1))
        then some (prayerName (0 + 1)) else none)
    ∧ fajrNotif6.next_start = (if 0 + 1 < 5 && truthy (startField e6 (0 + 1))
        then startField e6 (0 + 1) else none)
    ∧ (fajrNotif6.prayer = "isha" → fajrNotif6.next_prayer = none) :=
  next_prayer_immediate_successor e6 0 0 fajrNotif6 (by decide)

/-- Claim C5: with a schedule present, not forced, and the refresh due, a
fetched identifier equal to the last-seen one makes the refresh perform
zero extraction calls, update only the last-fetch timestamp, and return
Unchanged — on each of two consecutive such calls (the second one seven or
more days later, so it is again due). -/
theorem refresh_unchanged_identifier_twice (st : WorkerState) (now1 now2 : Int)
    (url : String) (dl1 dl2 : Bool) (raw1 raw2 : Except String RawParsed)
    (hsched : st.schedule.isSome = true) (hurl : st.lastUrl = some url)
    (hdue1 : tooSoon st now1 false = false)
    (hdue2 : 604800 ≤ now2 - now1) :
    refresh_schedule st now1 false (Except.ok url) dl1 raw1
      = ({ st with lastFetch := some now1 }, RefreshOutcome.Unchanged, 0)
    ∧ refresh_schedule { st with lastFetch := some now1 } now2 false (Except.ok url) dl2 raw2
      = ({ st with lastFetch := some now2 }, RefreshOutcome.Unchanged, 0) := by
  have hu1 : urlUnchanged st url false = true := by
    simp [urlUnchanged, hurl, hsched]
  constructor
  · rw [refresh_schedule, hdue1]
    show (if urlUnchanged st url false = true then _ else _) = _
    rw [hu1]
    rfl
  · have hskip2 : tooSoon { st with lastFetch := some now1 } now2 false = false := by
      simp only [tooSoon]
      have h7 : ¬ (now2 - now1 < 604800) := by omega
      simp [h7]
    have hu2 : urlUnchanged { st with lastFetch := some now1 } url false = true := by
      simp [urlUnchanged, hurl, hsched]
    rw [refresh_schedule, hskip2]
    show (if urlUnchanged { st with lastFetch := some now1 } url false = true then _ else _) = _
    rw [hu2]
    rfl

/-- Witness for C5: two due calls on a concrete state with an unchanged
identifier, seven days apart. -/
theorem refresh_unchanged_identifier_twice_witness :
    refresh_schedule stW 604800 false (Except.ok "u") true (Except.ok {})
      = ({ stW with lastFetch := some 604800 }, RefreshOutcome.Unchanged, 0)
    ∧ refresh_schedule { stW with lastFetch := some 604800 } 1209600 false
        (Except.ok "u") true (Except.ok {})
      = ({ stW with lastFetch := some 1209600 }, RefreshOutcome.Unchanged, 0) :=
  refresh_unchanged_identifier_twice stW 604800 1209600 "u" true true
    (Except.ok {}) (Except.ok {}) (by decide) (by decide) (by decide) (by decide)

/-- Claim C6: on the day whose only entry has just fajr data (start 05:54,
jamaat 06:45, sunrise 07:34) and no other prayers, the tick at 05:54
delivers exactly one fajr notification carrying the sunrise annotation and
nothing for any other prayer, and any second tick strictly after that
instant the same day delivers nothing. -/
theorem fajr_only_tick_exactly_once (t : Nat) (ht : 21240 < t) :
    run_day (some e6) 21240 = some ([Sent.prayer fajrNotif6], 0)
    ∧ fajrNotif6.prayer = "fajr"
    ∧ fajrNotif6.sunrise = some "07:34"
    ∧ run_day (some e6) t = some ([], 0) := by
  refine ⟨by decide, rfl, rfl, ?_⟩
  have key : ∀ s, notifyPrayer e6 s 0
      = if 21240 < s then some none
        else some (some (mkNotification e6 0 "05:54" "06:45")) := by
    intro s
    rfl
  have h0 : notifyPrayer e6 t 0 = some none := by rw [key, if_pos ht]
  have h1 : notifyPrayer e6 t 1 = some none := rfl
  have h2 : notifyPrayer e6 t 2 = some none := rfl
  have h3 : notifyPrayer e6 t 3 = some none := rfl
  have h4 : notifyPrayer e6 t 4 = some none := rfl
  simp [run_day, runPrayerLoop, h0, h1, h2, h3, h4]

/-- Witness for C6: the second tick one second after 05:54:00. -/
theorem fajr_only_tick_exactly_once_witness :
    run_day (some e6) 21240 = some ([Sent.prayer fajrNotif6], 0)
    ∧ fajrNotif6.prayer = "fajr"
    ∧ fajrNotif6.sunrise = some "07:34"
    ∧ run_day (some e6) 21241 = some ([], 0) :=
  fajr_only_tick_exactly_once 21241 (by decide)

/-- Claim C7: a tick on a date for which the stored schedule has no entry
emits exactly one "schedule unavailable" notification, does not crash, and
then waits 30 minutes (1800 seconds) before returning to re-check. -/
theorem unavailable_tick_single_notification (sched : Option Schedule) (now : Nat)
    (today : String) (h : ∀ e ∈ prayersOf sched, e.date ≠ today) :
    get_todays_prayers sched today = none
    ∧ run_day (get_todays_prayers sched today) now = some ([Sent.unavailable], 1800) := by
  have hg : get_todays_prayers sched today = none := by
    match sched with
    | none => rfl
    | some s =>
      simp only [get_todays_prayers]
      rw [List.find?_eq_none]
      intro e he
      simpa using h e he
  exact ⟨hg, by rw [hg]; rfl⟩

/-- Witness for C7: a missing schedule file and the date 2026-03-01. -/
theorem unavailable_tick_single_notification_witness :
    get_todays_prayers none "2026-03-01" = none
    ∧ run_day (get_todays_prayers none "2026-03-01") 0 = some ([Sent.unavailable], 1800) :=
  unavailable_tick_single_notification none 0 "2026-03-01" (by decide)

/-- Arithmetic core of the wrap-around: when the target is at or before
now, `time_until` shows the positive duration to the target interpreted as
tomorrow. -/
theorem timeUntilCore_wrap (nowSecs tgt0 : Nat) (hle : tgt0 ≤ nowSecs) :
    timeUntilCore nowSecs tgt0 = specFmtDuration ((tgt0 + 86400 - nowSecs) / 60) := by
  simp only [timeUntilCore, specFmtDuration, if_pos hle]
  rw [if_congr (by omega :
    (tgt0 + 86400 - nowSecs) / 60 / 60 > 0 ↔ 60 ≤ (tgt0 + 86400 - nowSecs) / 60) rfl rfl]

/-- Claim C8: for a valid target "HH:MM" at or before the current time,
`time_until` interprets the target as tomorrow, the wrapped-around duration
is positive, and the result is that duration formatted as hours plus
zero-padded minutes when hours are present; in particular at now = 10:00
with target "10:00" the result wraps to 24 hours. -/
theorem time_until_wraps_to_tomorrow (nowSecs h m : Nat) (t : String)
    (hparse : parseHHMM t = some (h, m)) (hnow : nowSecs < 86400)
    (hh : h < 24) (hm : m < 60) (hle : h * 3600 + m * 60 ≤ nowSecs) :
    0 < h * 3600 + m * 60 + 86400 - nowSecs
    ∧ time_until nowSecs t
      = some (specFmtDuration ((h * 3600 + m * 60 + 86400 - nowSecs) / 60))
    ∧ time_until 36000 "10:00" = some "24h 00m" := by
  refine ⟨by omega, ?_, by decide⟩
  rw [time_until, hparse]
  show (if h < 24 ∧ m < 60 then some (timeUntilCore nowSecs (h * 3600 + m * 60)) else none)
      = some (specFmtDuration ((h * 3600 + m * 60 + 86400 - nowSecs) / 60))
  rw [if_pos ⟨hh, hm⟩, timeUntilCore_wrap _ _ hle]

/-- Witness for C8: now = 10:00:00 and target "10:00". -/
theorem time_until_wraps_to_tomorrow_witness :
    0 < 10 * 3600 + 0 * 60 + 86400 - 36000
    ∧ time_until 36000 "10:00"
      = some (specFmtDuration ((10 * 3600 + 0 * 60 + 86400 - 36000) / 60))
    ∧ time_until 36000 "10:00" = some "24h 00m" :=
  time_until_wraps_to_tomorrow 36000 10 0 "10:00"
    (by decide) (by decide) (by decide) (by decide) (by decide)

set_option maxHeartbeats 1000000 in
/-- Exhaustive check that the 12-hour rendering of every valid hour and
minute parses back to the same (hour, minute) pair. -/
theorem parse12_fmt12core : ∀ h < 24, ∀ m < 60,
    parse12h (fmt12core h m) = some (h, m) := by decide

/-- Claim C9: for every valid 24-hour "HH:MM" string, the 12-hour formatter
round-trips to the same hour and minute under 12-hour interpretation, with
midnight mapping to "12:00 AM", noon to "12:00 PM", "13:30" to "1:30 PM"
and "23:59" to "11:59 PM". (As a Lean function, `fmt_12h` is deterministic
by construction.) -/
theorem fmt_12h_roundtrip (t : String) (h m : Nat)
    (hparse : parseHHMM t = some (h, m)) (hh : h < 24) (hm : m < 60) :
    (fmt_12h t).bind parse12h = some (h, m)
    ∧ fmt_12h "00:00" = some "12:00 AM"
    ∧ fmt_12h "12:00" = some "12:00 PM"
    ∧ fmt_12h "13:30" = some "1:30 PM"
    ∧ fmt_12h "23:59" = some "11:59 PM" := by
  refine ⟨?_, by decide, by decide, by decide, by decide⟩
  have hf : fmt_12h t = some (fmt12core h m) := by rw [fmt_12h, hparse]
  rw [hf]
  show parse12h (fmt12core h m) = some (h, m)
  exact parse12_fmt12core h hh m hm

/-- Witness for C9: the string "13:30". -/
theorem fmt_12h_roundtrip_witness :
    (fmt_12h "13:30").bind parse12h = some (13, 30)
    ∧ fmt_12h "00:00" = some "12:00 AM"
    ∧ fmt_12h "12:00" = some "12:00 PM"
    ∧ fmt_12h "13:30" = some "1:30 PM"
    ∧ fmt_12h "23:59" = some "11:59 PM" :=
  fmt_12h_roundtrip "13:30" 13 30 (by decide) (by decide) (by decide)

/-- Claim C10: after every refresh merge, the merged list of day entries
contains each date at most once and is sorted in ascending date order. -/
theorem merge_nodup_sorted_invariant (a b : List DayEntry) :
    (datesOf (mergePrayers a b)).Nodup
    ∧ (mergePrayers a b).Pairwise (fun e1 e2 => e1.date ≤ e2.date) := by
  refine ⟨nodup_dates_mergePrayers a b, ?_⟩
  have htrans : ∀ (x y z : DayEntry), dateLe x y → dateLe y z → dateLe x z := by
    intro x y z hxy hyz
    simp only [dateLe, decide_eq_true_eq] at *
    exact le_trans hxy hyz
  have htotal : ∀ (x y : DayEntry), dateLe x y || dateLe y x := by
    intro x y
    simp only [dateLe]
    rcases le_total x.date y.date with h | h
    · simp [h]
    · simp [h]
  have hs := List.sorted_mergeSort htrans htotal
    ((buildByDate (buildByDate [] a) b).map Prod.snd)
  exact hs.imp (fun hxy => by simpa [dateLe] using hxy)
